import Mathlib

/-!
# rofi-calc: a shallow embedding of `src/calc.c`

The plugin keeps two pieces of private data (`last_result` and `history`) and
answers rofi through a handful of callbacks.  Each callback of `calc.c` is
translated below into a Lean function over an explicit session state.

Conventions of the embedding:

* a C string is the list of its characters up to (not including) the
  terminating NUL;
* `unsigned int` arithmetic is done in `Int` and reduced modulo `2^32`, a
  conversion to `int` is spelled out;
* code whose behaviour is undefined in C (dereferencing something that is not
  a string, indexing an array out of its bounds) or that breaks the
  precondition of a GLib call returns `Except.error` with the `Fault` that
  describes it: such a result stands for a crash or for memory read at
  random, it is not an error value that a caller could inspect;
* `g_error` aborts the process; the failures it reports (a child process that
  cannot be started or read) are not part of the embedding;
* the external processes (`qalc`, `xclip`) are assumed to start and to accept
  every byte written to them; what is written to them is part of the result.
-/

namespace RofiCalc

/-- C string contents: the characters before the terminating NUL. -/
abbrev CStr := List Char

deriving instance DecidableEq for Except

/-- Undefined behaviour met while running a callback. -/
inductive Fault where
  /-- A small integer used as a pointer (`(const char *)2`, `NULL + 4`) is read as a string. -/
  | invalidPointer (address : Nat)
  /-- A string is read from a position beyond its terminating NUL. -/
  | readPastEnd
  /-- The macro `g_ptr_array_index` reads `pdata[index]` outside `0 .. len - 1`. -/
  | indexOutOfRange (index : Int) (len : Nat)
  /-- A call `g_ptr_array_remove_index (array, index)` with `index >= len`: GLib documents
  the failed precondition as a programmer error with undefined behaviour. -/
  | removeOutOfRange (index : Nat) (len : Nat)
  deriving DecidableEq, Repr

/-- Values of type `const char *` that the code passes around. -/
inductive CharPtr where
  /-- The pointer `NULL`. -/
  | null
  /-- An integer converted to a pointer; it points at no object. -/
  | addr (n : Nat)
  /-- A pointer into a NUL-terminated string; `s` is what a reader sees from there. -/
  | str (s : CStr)
  /-- A pointer one position beyond the terminating NUL of its string. -/
  | pastEnd
  deriving DecidableEq, Repr

/-- What `strlen`, `%s` and the other string readers do with a pointer. -/
def CharPtr.read : CharPtr → Except Fault CStr
  | .null => .error (.invalidPointer 0)
  | .addr n => .error (.invalidPointer n)
  | .str s => .ok s
  | .pastEnd => .error .readPastEnd

/-- Constants of rofi's `mode.h` (`ModeMode` and `MenuReturn`); the header is not part of
this repository, so the values are parameters of the embedding. -/
structure ModeHeader where
  MODE_EXIT : Nat
  NEXT_DIALOG : Nat
  RELOAD_DIALOG : Nat
  PREVIOUS_DIALOG : Nat
  RESET_DIALOG : Nat
  MENU_OK : Nat
  MENU_CANCEL : Nat
  MENU_NEXT : Nat
  MENU_CUSTOM_INPUT : Nat
  MENU_ENTRY_DELETE : Nat
  MENU_QUICK_SWITCH : Nat
  MENU_PREVIOUS : Nat
  MENU_LOWER_MASK : Nat
  deriving DecidableEq, Repr

/-- The values rofi 1.5 gives to the constants; used to instantiate the parameter on
concrete inputs. -/
def rofiHeader : ModeHeader where
  MODE_EXIT := 1000
  NEXT_DIALOG := 1001
  RELOAD_DIALOG := 1002
  PREVIOUS_DIALOG := 1003
  RESET_DIALOG := 1004
  MENU_OK := 0x00010000
  MENU_CANCEL := 0x00020000
  MENU_NEXT := 0x00040000
  MENU_CUSTOM_INPUT := 0x00080000
  MENU_ENTRY_DELETE := 0x00100000
  MENU_QUICK_SWITCH := 0x00200000
  MENU_PREVIOUS := 0x00400000
  MENU_LOWER_MASK := 0x0000FFFF

/-- The private data of the mode: `CALCModePrivateData`.  `history` lists the elements of
the `GPtrArray` from index 0 upwards. -/
structure CALCModePrivateData where
  last_result : CStr
  history : List CStr
  deriving DecidableEq, Repr

/-- The state after `get_calc`: `last_result = g_strdup("")`, `history = g_ptr_array_new()`. -/
def get_calc : CALCModePrivateData :=
  { last_result := [], history := [] }

/-- The value `-1u`. -/
def noRow : Nat := 2 ^ 32 - 1

/-- `calc_mode_get_num_entries`: `pd->history->len + 2` as an `unsigned int`. -/
def calc_mode_get_num_entries (pd : CALCModePrivateData) : Nat :=
  (pd.history.length + 2) % 2 ^ 32

/-- `strstr (haystack, needle)`: `none` for `NULL`, otherwise what is read from the first
occurrence of `needle` on. -/
def strstr : CStr → CStr → Option CStr
  | [], needle => if needle.isPrefixOf [] then some [] else none
  | c :: t, needle => if needle.isPrefixOf (c :: t) then some (c :: t) else strstr t needle

/-- The scan of `g_strrstr` from the end of the string: the last occurrence of a non-empty
`needle`. -/
def g_strrstr_scan : CStr → CStr → Option CStr
  | [], _ => none
  | c :: t, needle =>
    match g_strrstr_scan t needle with
    | some r => some r
    | none => if needle.isPrefixOf (c :: t) then some (c :: t) else none

/-- `g_strrstr (haystack, needle)` of GLib: the haystack itself for an empty needle,
otherwise the last occurrence, `none` for `NULL`. -/
def g_strrstr (haystack needle : CStr) : Option CStr :=
  if needle.length = 0 then some haystack else g_strrstr_scan haystack needle

/-- `strchr (s, c)`: what is read from the first `c` on, `none` for `NULL`. -/
def strchr : CStr → Char → Option CStr
  | [], _ => none
  | a :: t, c => if a = c then some (a :: t) else strchr t c

/-- `strcspn (s, "\n")`: the number of characters before the first newline. -/
def strcspn_newline : CStr → Nat
  | [] => 0
  | a :: t => if a = '\n' then 0 else strcspn_newline t + 1

/-- `strncmp (s1, s2, n)`: the difference of the first two characters that differ among
the first `n`, the terminating NUL counting as 0. -/
def strncmp : CStr → CStr → Nat → Int
  | _, _, 0 => 0
  | [], [], _ + 1 => 0
  | [], b :: _, _ + 1 => 0 - (b.toNat : Int)
  | a :: _, [], _ + 1 => (a.toNat : Int)
  | a :: s, b :: t, n + 1 => if a = b then strncmp s t n else (a.toNat : Int) - (b.toNat : Int)

/-- `is_error_string`. -/
def is_error_string (str : CStr) : Bool :=
  if (g_strrstr str "warning:".toList).isSome || (g_strrstr str "error:".toList).isSome then
    true
  else
    false

/-- `get_real_history_index`: `history->len - selected_line + 1` is computed in
`unsigned int` and returned as an `int`. -/
def get_real_history_index (history : List CStr) (selected_line : Nat) : Int :=
  let u : Int := ((history.length : Int) - (selected_line : Int) + 1) % 2 ^ 32
  if u < 2 ^ 31 then u else u - 2 ^ 32

/-- `get_only_result_part (&p)`, `string` being the pointer `p` that is read. -/
def get_only_result_part (string : Option CStr) : CharPtr :=
  match string with
  | none => .addr 1
  | some s =>
    match strchr s '=' with
    | none => .addr 2
    | some r =>
      -- `&r[2]`: `r[0]` is the `=`; when `r[1]` is the NUL, `r[2]` lies beyond the string
      match r.drop 1 with
      | [] => .pastEnd
      | _ :: rest => .str rest

/-- `copy_only_result_to_clipboard`: the bytes written to xclip, `none` when it is not
started. -/
def copy_only_result_to_clipboard (result : CharPtr) : Except Fault (Option CStr) :=
  if result ≠ .null then do
    let text ← result.read
    pure (some text)
  else
    pure none

/-- The macro `g_ptr_array_index (array, index)`: the element `pdata[index]`. -/
def g_ptr_array_index (array : List CStr) (index : Int) : Except Fault CStr :=
  if 0 ≤ index then
    match array.get? index.toNat with
    | some p => .ok p
    | none => .error (.indexOutOfRange index array.length)
  else
    .error (.indexOutOfRange index array.length)

/-- `g_ptr_array_remove_index (array, index)`, the `guint` index given as read from an
`int`: the element is removed and the following ones move down. -/
def g_ptr_array_remove_index (array : List CStr) (index : Int) : Except Fault (List CStr) :=
  let i : Nat := (index % 2 ^ 32).toNat
  if i < array.length then .ok (array.eraseIdx i) else .error (.removeOutOfRange i array.length)

/-- What one call of `calc_mode_result` leaves behind: the returned `ModeMode`, the private
data, and the text written to the clipboard process, if one was started. -/
structure Handled where
  retv : Nat
  pd : CALCModePrivateData
  clipboard : Option CStr
  deriving DecidableEq, Repr

/-- `calc_mode_result`; `menu_entry` is the bit pattern of the `int`, `selected_line` an
`unsigned int` value, and a bit test `menu_entry & MENU_X` is true when it is not 0.  The
`g_debug` lines before the `return` only log and are left out. -/
def calc_mode_result (k : ModeHeader) (pd : CALCModePrivateData) (menu_entry : Nat)
    (selected_line : Nat) : Except Fault Handled :=
  if menu_entry &&& k.MENU_NEXT ≠ 0 then
    pure { retv := k.NEXT_DIALOG, pd := pd, clipboard := none }
  else if menu_entry &&& k.MENU_PREVIOUS ≠ 0 then
    pure { retv := k.PREVIOUS_DIALOG, pd := pd, clipboard := none }
  else if menu_entry &&& k.MENU_QUICK_SWITCH ≠ 0 then
    pure { retv := menu_entry &&& k.MENU_LOWER_MASK, pd := pd, clipboard := none }
  else if menu_entry &&& k.MENU_OK ≠ 0 ∧ selected_line = 0 then
    if ¬ is_error_string pd.last_result ∧ pd.last_result.length > 0 then do
      let result := get_only_result_part (some pd.last_result)
      let copied ← copy_only_result_to_clipboard result
      pure { retv := k.MODE_EXIT, pd := pd, clipboard := copied }
    else
      pure { retv := k.MODE_EXIT, pd := pd, clipboard := none }
  else if (menu_entry &&& k.MENU_OK ≠ 0 ∧ selected_line = 1) ∨
      (menu_entry &&& k.MENU_CUSTOM_INPUT ≠ 0 ∧ selected_line = noRow) then
    if ¬ is_error_string pd.last_result ∧ pd.last_result.length > 0 then
      pure { retv := k.RESET_DIALOG,
             pd := { pd with history := pd.history ++ [pd.last_result] },
             clipboard := none }
    else
      pure { retv := k.RESET_DIALOG, pd := pd, clipboard := none }
  else if menu_entry &&& k.MENU_OK ≠ 0 ∧ selected_line > 1 then do
    let entry ← g_ptr_array_index pd.history (get_real_history_index pd.history selected_line)
    let result := get_only_result_part (some entry)
    let copied ← copy_only_result_to_clipboard result
    pure { retv := k.MODE_EXIT, pd := pd, clipboard := copied }
  else if menu_entry &&& k.MENU_ENTRY_DELETE ≠ 0 then
    if selected_line > 0 then do
      let history ← g_ptr_array_remove_index pd.history
        (get_real_history_index pd.history selected_line)
      pure { retv := k.RELOAD_DIALOG, pd := { pd with history := history }, clipboard := none }
    else
      pure { retv := k.RELOAD_DIALOG, pd := pd, clipboard := none }
  else
    pure { retv := k.MODE_EXIT, pd := pd, clipboard := none }

/-- `calc_get_display_value`: `none` is the `NULL` returned when `get_entry` is 0; the
`int` index is stored in an `unsigned int` before the array is read. -/
def calc_get_display_value (pd : CALCModePrivateData) (selected_line : Nat)
    (get_entry : Bool) : Except Fault (Option CStr) :=
  if ¬ get_entry then
    pure none
  else if selected_line = 0 then
    pure (some "Copy to clipboard and exit".toList)
  else if selected_line = 1 then
    pure (some "Add to history".toList)
  else do
    let real_index : Int := get_real_history_index pd.history selected_line % 2 ^ 32
    let text ← g_ptr_array_index pd.history real_index
    pure (some text)

/-- The parsing done by `process_cb` on the transcript read into `stdout_buf` (at most
4096 bytes; `stdout_buf` stands for what the string functions read from the buffer, its
bytes up to the first NUL): the string stored into `*last_result`. -/
def process_cb_result (stdout_buf : CStr) : Except Fault CStr := do
  let ans := strncmp stdout_buf "> ans:=".toList 7
  let result ←
    if ans ≠ 0 then
      pure stdout_buf
    else
      -- `strstr (stdout_buf, "\n\n>") + 3`
      match strstr stdout_buf "\n\n>".toList with
      | some r => pure (r.drop 3)
      | none => throw (.invalidPointer 3)
  -- `strstr (result, "\n\n  ") + 4`
  let result ←
    match strstr result "\n\n  ".toList with
    | some r => pure (r.drop 4)
    | none => throw (.invalidPointer 4)
  let line_length := strcspn_newline result
  pure (result.take line_length)

/-- `process_cb`, called with `user_data = &pd->last_result`: the parsed line replaces
`last_result`; the call of `rofi_view_reload` that follows touches no private data. -/
def process_cb (pd : CALCModePrivateData) (stdout_buf : CStr) :
    Except Fault CALCModePrivateData := do
  let line ← process_cb_result stdout_buf
  pure { pd with last_result := line }

/-- What `calc_preprocess_input` does: the bytes written to the standard input of qalc,
the returned copy of the input, and the private data afterwards. -/
structure Submitted where
  stdin : CStr
  retv : CStr
  pd : CALCModePrivateData
  deriving DecidableEq, Repr

/-- `calc_preprocess_input`. -/
def calc_preprocess_input (pd : CALCModePrivateData) (input : CStr) :
    Except Fault Submitted :=
  if pd.history.length > 0 then do
    let last ← g_ptr_array_index pd.history (((pd.history.length : Int) - 1) % 2 ^ 32)
    let answer ← (get_only_result_part (some last)).read
    let cmd := "ans:=".toList ++ answer ++ "\n".toList
    pure { stdin := cmd ++ input, retv := input, pd := pd }
  else
    pure { stdin := input, retv := input, pd := pd }


/-- The action reaches the add-to-history branch of `calc_mode_result`: no navigation bit,
not OK on row 0, and OK on row 1 or custom input with no row selected. -/
abbrev addAction (k : ModeHeader) (menu_entry selected_line : Nat) : Prop :=
  menu_entry &&& k.MENU_NEXT = 0 ∧ menu_entry &&& k.MENU_PREVIOUS = 0 ∧
  menu_entry &&& k.MENU_QUICK_SWITCH = 0 ∧
  ¬ (menu_entry &&& k.MENU_OK ≠ 0 ∧ selected_line = 0) ∧
  ((menu_entry &&& k.MENU_OK ≠ 0 ∧ selected_line = 1) ∨
    (menu_entry &&& k.MENU_CUSTOM_INPUT ≠ 0 ∧ selected_line = noRow))

/-- The action reaches the delete branch of `calc_mode_result`: the entry-delete bit is
set, the navigation bits and the OK bit are clear, and it is not custom input with no row
selected. -/
abbrev deleteAction (k : ModeHeader) (menu_entry selected_line : Nat) : Prop :=
  menu_entry &&& k.MENU_NEXT = 0 ∧ menu_entry &&& k.MENU_PREVIOUS = 0 ∧
  menu_entry &&& k.MENU_QUICK_SWITCH = 0 ∧ menu_entry &&& k.MENU_OK = 0 ∧
  ¬ (menu_entry &&& k.MENU_CUSTOM_INPUT ≠ 0 ∧ selected_line = noRow) ∧
  menu_entry &&& k.MENU_ENTRY_DELETE ≠ 0

/-- The add-to-history condition on `last_result`: not an error string and not empty. -/
abbrev addable (last_result : CStr) : Prop :=
  is_error_string last_result = false ∧ last_result ≠ []

/-- Session states reached from the state set up by `get_calc` through calls of
`calc_mode_result` that return and through evaluation completions that store a line
satisfying `P` into `last_result`. -/
inductive Reachable (k : ModeHeader) (P : CStr → Prop) : CALCModePrivateData → Prop where
  | init : Reachable k P get_calc
  | action (pd : CALCModePrivateData) (menu_entry selected_line : Nat) (out : Handled) :
      Reachable k P pd → selected_line < 2 ^ 32 →
      calc_mode_result k pd menu_entry selected_line = .ok out → Reachable k P out.pd
  | completion (pd : CALCModePrivateData) (line : CStr) :
      Reachable k P pd → P line → Reachable k P { pd with last_result := line }

/-! ## The string functions -/

theorem strstr_eq_none_iff (haystack needle : CStr) :
    strstr haystack needle = none ↔ ¬ needle <:+: haystack := by
  induction haystack with
  | nil =>
    unfold strstr
    by_cases h : needle = []
    · simp [h]
    · have : ¬ needle <+: [] := by simpa using h
      simp [h]
  | cons c t ih =>
    unfold strstr
    rw [List.infix_cons_iff]
    by_cases h : needle <+: c :: t
    · simp [h]
    · simp [h, ih]

/-- `strstr` stops at the first place where the needle starts. -/
theorem strstr_first (before needle after : CStr)
    (hfirst : ∀ i, i < before.length → ¬ needle <+: (before ++ needle ++ after).drop i) :
    strstr (before ++ needle ++ after) needle = some (needle ++ after) := by
  induction before with
  | nil =>
    cases hn : needle ++ after with
    | nil =>
      obtain ⟨hnil, hanil⟩ := List.append_eq_nil.mp hn
      simp [strstr, hnil, hanil]
    | cons c t =>
      have hp : needle <+: c :: t := hn ▸ List.prefix_append needle after
      simp [hn, strstr, hp]
  | cons a before ih =>
    have h0 := hfirst 0 (by simp)
    have hrest : ∀ i, i < before.length → ¬ needle <+: (before ++ needle ++ after).drop i := by
      intro i hi
      have := hfirst (i + 1) (by simp; omega)
      simpa using this
    simp only [List.drop_zero] at h0
    simp only [List.cons_append] at h0 ⊢
    unfold strstr
    simp only [List.isPrefixOf_iff_prefix, h0, if_false]
    simpa using ih hrest

theorem g_strrstr_scan_isSome_iff (haystack needle : CStr) (hne : needle ≠ []) :
    (g_strrstr_scan haystack needle).isSome = true ↔ needle <:+: haystack := by
  induction haystack with
  | nil => simp [g_strrstr_scan, hne]
  | cons c t ih =>
    unfold g_strrstr_scan
    rw [List.infix_cons_iff]
    cases hs : g_strrstr_scan t needle with
    | some r =>
      have : needle <:+: t := ih.mp (by simp [hs])
      simp [this]
    | none =>
      have hnot : ¬ needle <:+: t := fun hc => by
        have := ih.mpr hc
        simp [hs] at this
      by_cases hp : needle <+: c :: t
      · simp [hp]
      · simp [hp, hnot]

theorem is_error_string_iff (str : CStr) :
    is_error_string str = true ↔
      ("warning:".toList <:+: str ∨ "error:".toList <:+: str) := by
  have hw : ("warning:".toList : CStr) ≠ [] := by decide
  have he : ("error:".toList : CStr) ≠ [] := by decide
  have hwl : ¬ ("warning:".toList : CStr).length = 0 := by decide
  have hel : ¬ ("error:".toList : CStr).length = 0 := by decide
  unfold is_error_string g_strrstr
  rw [if_neg hwl, if_neg hel]
  rw [← g_strrstr_scan_isSome_iff str _ hw, ← g_strrstr_scan_isSome_iff str _ he]
  cases (g_strrstr_scan str "warning:".toList).isSome <;>
    cases (g_strrstr_scan str "error:".toList).isSome <;> simp

theorem strchr_eq_none_iff (s : CStr) (c : Char) : strchr s c = none ↔ c ∉ s := by
  induction s with
  | nil => simp [strchr]
  | cons a t ih =>
    unfold strchr
    by_cases h : a = c
    · simp [h]
    · simp [h, ih, Ne.symm h]

theorem strchr_first (before after : CStr) (c : Char) (h : c ∉ before) :
    strchr (before ++ c :: after) c = some (c :: after) := by
  induction before with
  | nil => simp [strchr]
  | cons a t ih =>
    have ha : a ≠ c := fun hc => h (by simp [hc])
    have ht : c ∉ t := fun hc => h (by simp [hc])
    simp [strchr, ha, ih ht]

theorem strncmp_eq_zero_iff (p s : CStr) (hp : ∀ b ∈ p, b.toNat ≠ 0) :
    strncmp s p p.length = 0 ↔ p <+: s := by
  induction p generalizing s with
  | nil => simp [strncmp]
  | cons b p ih =>
    have hb : b.toNat ≠ 0 := hp b (by simp)
    have hp2 : ∀ x ∈ p, x.toNat ≠ 0 := fun x hx => hp x (by simp [hx])
    cases s with
    | nil =>
      simp only [List.length_cons, strncmp, List.prefix_nil]
      constructor
      · intro h; omega
      · intro h; cases h
    | cons a s =>
      simp only [List.length_cons, strncmp, List.cons_prefix_cons]
      by_cases hab : a = b
      · simp [hab, ih s hp2]
      · have hne : a.toNat ≠ b.toNat := fun hc => hab (by
          rw [← Char.ofNat_toNat a, ← Char.ofNat_toNat b, hc])
        simp only [if_neg hab]
        constructor
        · intro h; omega
        · intro h; exact absurd h.1.symm hab

theorem strcspn_newline_take (s : CStr) :
    s.take (strcspn_newline s) = s.takeWhile (fun c => c != '\n') := by
  induction s with
  | nil => rfl
  | cons a t ih =>
    unfold strcspn_newline
    by_cases h : a = '\n'
    · simp [h, List.takeWhile]
    · have hb : (a != '\n') = true := by simpa using h
      simp [h, List.takeWhile, ih, hb]

/-! ## Index translation -/

theorem get_real_history_index_in_range (history : List CStr) (selected_line : Nat)
    (hlen : history.length ≤ 2 ^ 31) (h2 : 2 ≤ selected_line)
    (hle : selected_line ≤ history.length + 1) :
    get_real_history_index history selected_line
      = ((history.length + 1 - selected_line : Nat) : Int) := by
  unfold get_real_history_index
  simp only []
  split <;> omega

theorem get_real_history_index_mod (history : List CStr) (selected_line : Nat) :
    get_real_history_index history selected_line % 2 ^ 32
      = ((history.length : Int) - (selected_line : Int) + 1) % 2 ^ 32 := by
  unfold get_real_history_index
  simp only []
  split <;> omega

theorem g_ptr_array_index_ok (array : List CStr) (i : Nat) (h : i < array.length) :
    g_ptr_array_index array (i : Int) = .ok (array.get ⟨i, h⟩) := by
  simp [g_ptr_array_index, List.getElem?_eq_getElem h]

theorem g_ptr_array_index_isOk_iff (array : List CStr) (index : Int) :
    (∃ p, g_ptr_array_index array index = .ok p) ↔ 0 ≤ index ∧ index < array.length := by
  unfold g_ptr_array_index
  constructor
  · rintro ⟨p, hp⟩
    split at hp
    · rename_i h0
      refine ⟨h0, ?_⟩
      cases hg : array.get? index.toNat with
      | none => rw [hg] at hp; cases hp
      | some q =>
        have := List.get?_eq_some.mp hg
        obtain ⟨hlt, -⟩ := this
        omega
    · cases hp
  · rintro ⟨h0, hlt⟩
    have hlt2 : index.toNat < array.length := by omega
    refine ⟨array.get ⟨index.toNat, hlt2⟩, ?_⟩
    simp [h0, List.getElem?_eq_getElem hlt2]


theorem g_ptr_array_index_out_of_range (array : List CStr) (index : Int)
    (h : ¬ (0 ≤ index ∧ index < array.length)) :
    g_ptr_array_index array index = .error (.indexOutOfRange index array.length) := by
  unfold g_ptr_array_index
  split
  · rename_i h0
    have hge : array.length ≤ index.toNat := by omega
    rw [List.get?_eq_none.mpr hge]
  · rfl

/-! ## The action handler, branch by branch -/

theorem calc_mode_result_add (k : ModeHeader) (pd : CALCModePrivateData)
    (menu_entry selected_line : Nat) (h : addAction k menu_entry selected_line) :
    calc_mode_result k pd menu_entry selected_line
      = .ok { retv := k.RESET_DIALOG,
              pd := if is_error_string pd.last_result = false ∧ pd.last_result ≠ [] then
                  { pd with history := pd.history ++ [pd.last_result] } else pd,
              clipboard := none } := by
  obtain ⟨h1, h2, h3, h4, h5⟩ := h
  unfold calc_mode_result
  rw [if_neg (by simp [h1]), if_neg (by simp [h2]), if_neg (by simp [h3]), if_neg h4, if_pos h5]
  by_cases he : is_error_string pd.last_result = false ∧ pd.last_result ≠ []
  · rw [if_pos he, if_pos]
    · rfl
    · exact ⟨by simp [he.1], List.length_pos.mpr he.2⟩
  · rw [if_neg he, if_neg]
    · rfl
    · intro hc
      apply he
      refine ⟨by simpa using hc.1, List.length_pos.mp hc.2⟩

theorem calc_mode_result_delete (k : ModeHeader) (pd : CALCModePrivateData)
    (menu_entry selected_line : Nat) (h : deleteAction k menu_entry selected_line)
    (hpos : 0 < selected_line) :
    calc_mode_result k pd menu_entry selected_line
      = (g_ptr_array_remove_index pd.history
            (get_real_history_index pd.history selected_line)).map
          (fun history =>
            { retv := k.RELOAD_DIALOG, pd := { pd with history := history },
              clipboard := none }) := by
  obtain ⟨h1, h2, h3, h4, h5, h6⟩ := h
  unfold calc_mode_result
  rw [if_neg (by simp [h1]), if_neg (by simp [h2]), if_neg (by simp [h3]),
    if_neg (by simp [h4]), if_neg (by rintro (⟨ho, -⟩ | hc); exacts [ho h4, h5 hc]), if_neg (by simp [h4]),
    if_pos h6, if_pos hpos]
  cases g_ptr_array_remove_index pd.history (get_real_history_index pd.history selected_line)
    <;> rfl

theorem g_ptr_array_remove_index_in_range (history : List CStr) (selected_line : Nat)
    (hlen : history.length ≤ 2 ^ 32) (h2 : 2 ≤ selected_line)
    (hle : selected_line ≤ history.length + 1) :
    g_ptr_array_remove_index history (get_real_history_index history selected_line)
      = .ok (history.eraseIdx (history.length + 1 - selected_line)) := by
  unfold g_ptr_array_remove_index
  have hm : (get_real_history_index history selected_line % 2 ^ 32).toNat
      = history.length + 1 - selected_line := by
    rw [get_real_history_index_mod]
    omega
  simp only [hm]
  rw [if_pos (by omega)]


theorem g_ptr_array_remove_index_isOk (array : List CStr) (index : Int) (r : List CStr)
    (h : g_ptr_array_remove_index array index = .ok r) :
    ∃ i, i < array.length ∧ (i : Int) = index % 2 ^ 32 ∧ r = array.eraseIdx i := by
  unfold g_ptr_array_remove_index at h
  simp only [] at h
  split at h
  · rename_i hlt
    refine ⟨(index % 2 ^ 32).toNat, hlt, by omega, ?_⟩
    cases h
    rfl
  · cases h

/-- Every call of `calc_mode_result` that returns has left the private data alone, or has
appended `last_result` in the add branch, or has removed one element in the delete
branch. -/
theorem calc_mode_result_frame (k : ModeHeader) (pd : CALCModePrivateData)
    (menu_entry selected_line : Nat) (out : Handled)
    (h : calc_mode_result k pd menu_entry selected_line = .ok out) :
    out.pd = pd ∨
    (addAction k menu_entry selected_line ∧ addable pd.last_result ∧
      out.pd = { pd with history := pd.history ++ [pd.last_result] }) ∨
    (deleteAction k menu_entry selected_line ∧ 0 < selected_line ∧
      ∃ i, i < pd.history.length ∧
        (i : Int) = get_real_history_index pd.history selected_line % 2 ^ 32 ∧
        out.pd = { pd with history := pd.history.eraseIdx i }) := by
  have not0 : ∀ x : Nat, ¬ x ≠ 0 → x = 0 := fun x hx => not_not.mp hx
  unfold calc_mode_result at h
  split_ifs at h with hn hp hq ho hc ha he hoe hd hs
  · cases h; left; rfl
  · cases h; left; rfl
  · cases h; left; rfl
  · left
    simp only [bind, Except.bind, pure, Except.pure] at h
    split at h
    · cases h
    · cases h; rfl
  · cases h; left; rfl
  · cases h
    right; left
    exact ⟨⟨not0 _ hn, not0 _ hp, not0 _ hq, ho, ha⟩,
      ⟨by simpa using he.1, List.length_pos.mp he.2⟩, rfl⟩
  · cases h; left; rfl
  · left
    simp only [bind, Except.bind, pure, Except.pure] at h
    split at h
    · cases h
    · split at h
      · cases h
      · cases h; rfl
  · right; right
    simp only [bind, Except.bind, pure, Except.pure] at h
    split at h
    · cases h
    · rename_i r hr
      cases h
      obtain ⟨i, hi, hidx, hri⟩ := g_ptr_array_remove_index_isOk _ _ _ hr
      have hok : menu_entry &&& k.MENU_OK = 0 := by
        by_contra hne
        rcases Nat.lt_or_ge 1 selected_line with h1 | h1
        · exact hoe ⟨hne, h1⟩
        · rcases Nat.eq_zero_or_pos selected_line with h0 | h0
          · exact ho ⟨hne, h0⟩
          · exact ha (Or.inl ⟨hne, by omega⟩)
      exact ⟨⟨not0 _ hn, not0 _ hp, not0 _ hq, hok, fun hci => ha (Or.inr hci), hd⟩, hs, i, hi,
        hidx, by simp [hri]⟩
  · cases h; left; rfl
  · cases h; left; rfl


/-! ## Row count, round trip, navigation, default action -/

/-- C11 (row count law): `calc_mode_get_num_entries` is 2 in the initial session and
`history length + 2` in every session, the counts before and after an action being
`unsigned int` values (`len + 3 < 2^32`); a successful add-to-history returns and
increases it by exactly 1, a delete on a row in `[2, len + 1]` returns and decreases it by
exactly 1, and every other call of `calc_mode_result` that returns leaves it unchanged. -/
theorem row_count_law (k : ModeHeader) (pd : CALCModePrivateData)
    (menu_entry selected_line : Nat) (hlen : pd.history.length + 3 < 2 ^ 32)
    (hrow : selected_line < 2 ^ 32) :
    calc_mode_get_num_entries get_calc = 2 ∧
    calc_mode_get_num_entries pd = pd.history.length + 2 ∧
    (addAction k menu_entry selected_line → addable pd.last_result →
      ∃ out, calc_mode_result k pd menu_entry selected_line = .ok out ∧
        calc_mode_get_num_entries out.pd = calc_mode_get_num_entries pd + 1) ∧
    (deleteAction k menu_entry selected_line → 2 ≤ selected_line →
      selected_line ≤ pd.history.length + 1 →
      ∃ out, calc_mode_result k pd menu_entry selected_line = .ok out ∧
        calc_mode_get_num_entries out.pd + 1 = calc_mode_get_num_entries pd) ∧
    (∀ out, calc_mode_result k pd menu_entry selected_line = .ok out →
      ¬ (addAction k menu_entry selected_line ∧ addable pd.last_result) →
      ¬ (deleteAction k menu_entry selected_line ∧ 2 ≤ selected_line ∧
          selected_line ≤ pd.history.length + 1) →
      calc_mode_get_num_entries out.pd = calc_mode_get_num_entries pd) := by
  have hcount : ∀ h : List CStr, h.length + 2 < 2 ^ 32 →
      (h.length + 2) % 2 ^ 32 = h.length + 2 := fun h hh => by omega
  refine ⟨by decide, hcount _ (by omega), ?_, ?_, ?_⟩
  · intro hadd he
    refine ⟨_, calc_mode_result_add k pd menu_entry selected_line hadd, ?_⟩
    simp only [calc_mode_get_num_entries, if_pos he, List.length_append, List.length_singleton]
    omega
  · intro hdel h2 hle
    rw [calc_mode_result_delete k pd menu_entry selected_line hdel (by omega),
      g_ptr_array_remove_index_in_range pd.history selected_line (by omega) h2 hle]
    refine ⟨_, rfl, ?_⟩
    simp only [calc_mode_get_num_entries, List.length_eraseIdx]
    rw [if_pos (by omega)]
    omega
  · intro out h hnadd hndel
    rcases calc_mode_result_frame k pd menu_entry selected_line out h with
      heq | ⟨hadd, he, -⟩ | ⟨hdel, hpos, i, hi, hidx, -⟩
    · rw [heq]
    · exact absurd ⟨hadd, he⟩ hnadd
    · exfalso
      apply hndel
      rw [get_real_history_index_mod] at hidx
      refine ⟨hdel, ?_, ?_⟩ <;> omega

/-- The row count law at a session with one entry: the count is 3, and adding the current
result makes it 4. -/
theorem row_count_law_witness :
    calc_mode_get_num_entries
        { last_result := "3 + 3 = 6".toList, history := ["1 + 1 = 2".toList] } = 1 + 2 ∧
    ∃ out, calc_mode_result rofiHeader
        { last_result := "3 + 3 = 6".toList, history := ["1 + 1 = 2".toList] } 0x10000 1
          = .ok out ∧
      calc_mode_get_num_entries out.pd
        = calc_mode_get_num_entries
            { last_result := "3 + 3 = 6".toList, history := ["1 + 1 = 2".toList] } + 1 :=
  have h := row_count_law rofiHeader
    { last_result := "3 + 3 = 6".toList, history := ["1 + 1 = 2".toList] } 0x10000 1
    (by decide) (by decide)
  ⟨h.2.1, h.2.2.1 (by decide) (by decide)⟩

/-- C12 (add/delete round trip): in a session whose `last_result` is non-empty and not an
error string (and whose history, one entry added, has a `guint` length), add-to-history on
row 1 followed by entry-delete on display row 2 both return, and the private data, the
history included, is what it was before. -/
theorem add_delete_round_trip (k : ModeHeader) (pd : CALCModePrivateData)
    (add del : Nat) (hlen : pd.history.length + 1 < 2 ^ 32) (hres : addable pd.last_result)
    (hadd : addAction k add 1) (hdel : deleteAction k del 2) :
    ∃ out1 out2, calc_mode_result k pd add 1 = .ok out1 ∧
      out1.pd.history = pd.history ++ [pd.last_result] ∧
      calc_mode_result k out1.pd del 2 = .ok out2 ∧
      out2.pd.history = pd.history ∧ out2.pd = pd := by
  have h1 : calc_mode_result k pd add 1
      = .ok { retv := k.RESET_DIALOG,
              pd := { pd with history := pd.history ++ [pd.last_result] },
              clipboard := none } := by
    rw [calc_mode_result_add k pd add 1 hadd, if_pos hres]
  have h2 : calc_mode_result k { pd with history := pd.history ++ [pd.last_result] } del 2
      = .ok { retv := k.RELOAD_DIALOG, pd := pd, clipboard := none } := by
    rw [calc_mode_result_delete k _ del 2 hdel (by omega),
      g_ptr_array_remove_index_in_range _ 2 (by simp; omega) (by omega) (by simp)]
    simp [Except.map, List.eraseIdx_append_of_length_le]
  exact ⟨_, _, h1, rfl, h2, rfl, rfl⟩

/-- The round trip on the history `["1 + 1 = 2"]` with the result `"3 + 3 = 6"`. -/
theorem add_delete_round_trip_witness :
    ∃ out1 out2,
      calc_mode_result rofiHeader
          { last_result := "3 + 3 = 6".toList, history := ["1 + 1 = 2".toList] } 0x10000 1
        = .ok out1 ∧
      out1.pd.history = ["1 + 1 = 2".toList] ++ ["3 + 3 = 6".toList] ∧
      calc_mode_result rofiHeader out1.pd 0x100000 2 = .ok out2 ∧
      out2.pd.history = ["1 + 1 = 2".toList] ∧
      out2.pd = { last_result := "3 + 3 = 6".toList, history := ["1 + 1 = 2".toList] } :=
  add_delete_round_trip rofiHeader
    { last_result := "3 + 3 = 6".toList, history := ["1 + 1 = 2".toList] } 0x10000 0x100000
    (by decide) (by decide) (by decide) (by decide)


/-- C13 (navigation takes precedence): whatever the row, the session and the other bits of
the action, `calc_mode_result` returns next-dialog when the Next bit is set, otherwise
previous-dialog when the Previous bit is set, otherwise `menu_entry & MENU_LOWER_MASK`
when the QuickSwitch bit is set; in the three cases the private data is unchanged and
nothing is written to the clipboard. -/
theorem navigation_precedence (k : ModeHeader) (pd : CALCModePrivateData)
    (menu_entry selected_line : Nat) :
    (menu_entry &&& k.MENU_NEXT ≠ 0 →
      calc_mode_result k pd menu_entry selected_line
        = .ok { retv := k.NEXT_DIALOG, pd := pd, clipboard := none }) ∧
    (menu_entry &&& k.MENU_NEXT = 0 → menu_entry &&& k.MENU_PREVIOUS ≠ 0 →
      calc_mode_result k pd menu_entry selected_line
        = .ok { retv := k.PREVIOUS_DIALOG, pd := pd, clipboard := none }) ∧
    (menu_entry &&& k.MENU_NEXT = 0 → menu_entry &&& k.MENU_PREVIOUS = 0 →
      menu_entry &&& k.MENU_QUICK_SWITCH ≠ 0 →
      calc_mode_result k pd menu_entry selected_line
        = .ok { retv := menu_entry &&& k.MENU_LOWER_MASK, pd := pd, clipboard := none }) := by
  refine ⟨fun hn => ?_, fun hn hp => ?_, fun hn hp hq => ?_⟩
  · unfold calc_mode_result
    rw [if_pos hn]
    rfl
  · unfold calc_mode_result
    rw [if_neg (by simp [hn]), if_pos hp]
    rfl
  · unfold calc_mode_result
    rw [if_neg (by simp [hn]), if_neg (by simp [hp]), if_pos hq]
    rfl

/-- Navigation on a session with one entry: Next together with OK on row 0, Previous
together with entry-delete on row 2, and QuickSwitch to dialog 3 together with OK on
row 2. -/
theorem navigation_precedence_witness :
    calc_mode_result rofiHeader
        { last_result := "3 + 3 = 6".toList, history := ["1 + 1 = 2".toList] } 0x50000 0
      = .ok { retv := 1001,
              pd := { last_result := "3 + 3 = 6".toList, history := ["1 + 1 = 2".toList] },
              clipboard := none } ∧
    calc_mode_result rofiHeader
        { last_result := "3 + 3 = 6".toList, history := ["1 + 1 = 2".toList] } 0x500000 2
      = .ok { retv := 1003,
              pd := { last_result := "3 + 3 = 6".toList, history := ["1 + 1 = 2".toList] },
              clipboard := none } ∧
    calc_mode_result rofiHeader
        { last_result := "3 + 3 = 6".toList, history := ["1 + 1 = 2".toList] } 0x210003 2
      = .ok { retv := 3,
              pd := { last_result := "3 + 3 = 6".toList, history := ["1 + 1 = 2".toList] },
              clipboard := none } :=
  ⟨(navigation_precedence rofiHeader _ 0x50000 0).1 (by decide),
   (navigation_precedence rofiHeader _ 0x500000 2).2.1 (by decide) (by decide),
   (navigation_precedence rofiHeader _ 0x210003 2).2.2 (by decide) (by decide) (by decide)⟩

/-- C14 as stated fails: entry-delete alone on row 0 matches none of the conditions of the
decision table (no Next, Previous, QuickSwitch or OK bit, no custom input, and the row is
not above 0), the private data is unchanged, but the directive is reload-dialog and not
exit. -/
theorem default_action_counterexample :
    (0x100000 &&& rofiHeader.MENU_NEXT = 0 ∧ 0x100000 &&& rofiHeader.MENU_PREVIOUS = 0 ∧
      0x100000 &&& rofiHeader.MENU_QUICK_SWITCH = 0 ∧ 0x100000 &&& rofiHeader.MENU_OK = 0 ∧
      0x100000 &&& rofiHeader.MENU_CUSTOM_INPUT = 0 ∧
      ¬ (0x100000 &&& rofiHeader.MENU_ENTRY_DELETE ≠ 0 ∧ 0 < 0)) ∧
    calc_mode_result rofiHeader get_calc 0x100000 0
      = .ok { retv := rofiHeader.RELOAD_DIALOG, pd := get_calc, clipboard := none } ∧
    rofiHeader.RELOAD_DIALOG ≠ rofiHeader.MODE_EXIT := by
  refine ⟨by decide, by rfl, by decide⟩

/-- C14 amended (default action): when the Next, Previous, QuickSwitch and OK bits are
clear and the action is not custom input with no row selected, `calc_mode_result` returns
with the private data unchanged and nothing written to the clipboard; the directive is
exit when the entry-delete bit is clear too (Cancel alone, custom input with a row
selected), and reload-dialog for entry-delete on row 0. -/
theorem default_action (k : ModeHeader) (pd : CALCModePrivateData)
    (menu_entry selected_line : Nat)
    (hn : menu_entry &&& k.MENU_NEXT = 0) (hp : menu_entry &&& k.MENU_PREVIOUS = 0)
    (hq : menu_entry &&& k.MENU_QUICK_SWITCH = 0) (ho : menu_entry &&& k.MENU_OK = 0)
    (hc : ¬ (menu_entry &&& k.MENU_CUSTOM_INPUT ≠ 0 ∧ selected_line = noRow)) :
    (menu_entry &&& k.MENU_ENTRY_DELETE = 0 →
      calc_mode_result k pd menu_entry selected_line
        = .ok { retv := k.MODE_EXIT, pd := pd, clipboard := none }) ∧
    (menu_entry &&& k.MENU_ENTRY_DELETE ≠ 0 → selected_line = 0 →
      calc_mode_result k pd menu_entry selected_line
        = .ok { retv := k.RELOAD_DIALOG, pd := pd, clipboard := none }) := by
  refine ⟨fun hd => ?_, fun hd h0 => ?_⟩
  · unfold calc_mode_result
    rw [if_neg (by simp [hn]), if_neg (by simp [hp]), if_neg (by simp [hq]),
      if_neg (by simp [ho]), if_neg (by rintro (⟨h, -⟩ | h); exacts [h ho, hc h]),
      if_neg (by simp [ho]), if_neg (by simp [hd])]
    rfl
  · unfold calc_mode_result
    rw [if_neg (by simp [hn]), if_neg (by simp [hp]), if_neg (by simp [hq]),
      if_neg (by simp [ho]), if_neg (by rintro (⟨h, -⟩ | h); exacts [h ho, hc h]),
      if_neg (by simp [ho]), if_pos hd, if_neg (by omega)]
    rfl

/-- The default action on Cancel alone (exit) and on entry-delete alone on row 0
(reload-dialog), in a session with one entry. -/
theorem default_action_witness :
    calc_mode_result rofiHeader
        { last_result := "3 + 3 = 6".toList, history := ["1 + 1 = 2".toList] } 0x20000 2
      = .ok { retv := 1000,
              pd := { last_result := "3 + 3 = 6".toList, history := ["1 + 1 = 2".toList] },
              clipboard := none } ∧
    calc_mode_result rofiHeader
        { last_result := "3 + 3 = 6".toList, history := ["1 + 1 = 2".toList] } 0x100000 0
      = .ok { retv := 1002,
              pd := { last_result := "3 + 3 = 6".toList, history := ["1 + 1 = 2".toList] },
              clipboard := none } :=
  ⟨(default_action rofiHeader _ 0x20000 2 (by decide) (by decide) (by decide) (by decide)
      (by decide)).1 (by decide),
   (default_action rofiHeader _ 0x100000 0 (by decide) (by decide) (by decide) (by decide)
      (by decide)).2 (by decide) rfl⟩


/-! ## Mutation discipline and the range of the index translation -/

/-- C19 (mutation discipline): a call of `calc_mode_result` that returns leaves
`last_result` as it was, and leaves the history as it was unless it ran the add branch
(the history is then the old one with `last_result` appended) or the delete branch (the
history is then the old one with one element removed); `last_result` is written by
`process_cb`, which stores the parsed line and leaves the history alone.  The queries
`calc_mode_get_num_entries` and `calc_get_display_value` only read the private data: they
are functions of it and return no state. -/
theorem mutation_discipline (k : ModeHeader) (pd : CALCModePrivateData)
    (menu_entry selected_line : Nat) (out : Handled)
    (h : calc_mode_result k pd menu_entry selected_line = .ok out) :
    out.pd.last_result = pd.last_result ∧
    (out.pd.history = pd.history ∨
      (addAction k menu_entry selected_line ∧ addable pd.last_result ∧
        out.pd.history = pd.history ++ [pd.last_result]) ∨
      (deleteAction k menu_entry selected_line ∧ 0 < selected_line ∧
        ∃ i, i < pd.history.length ∧ out.pd.history = pd.history.eraseIdx i ∧
          out.pd.history.length + 1 = pd.history.length)) ∧
    (∀ stdout_buf after, process_cb pd stdout_buf = .ok after →
      after.history = pd.history ∧ process_cb_result stdout_buf = .ok after.last_result) := by
  refine ⟨?_, ?_, ?_⟩
  · rcases calc_mode_result_frame k pd menu_entry selected_line out h with
      heq | ⟨-, -, heq⟩ | ⟨-, -, i, -, -, heq⟩ <;> rw [heq]
  · rcases calc_mode_result_frame k pd menu_entry selected_line out h with
      heq | ⟨hadd, he, heq⟩ | ⟨hdel, hpos, i, hi, -, heq⟩
    · left; rw [heq]
    · right; left; exact ⟨hadd, he, by rw [heq]⟩
    · right; right
      refine ⟨hdel, hpos, i, hi, by rw [heq], ?_⟩
      rw [heq]
      simp only [List.length_eraseIdx, if_pos hi]
      omega
  · intro stdout_buf after hcb
    unfold process_cb at hcb
    cases hr : process_cb_result stdout_buf with
    | error e => rw [hr] at hcb; cases hcb
    | ok line =>
      rw [hr] at hcb
      cases hcb
      exact ⟨rfl, rfl⟩

/-- Mutation discipline at an add-to-history on a session with one entry: `last_result`
stays, the history gains it. -/
theorem mutation_discipline_witness :
    calc_mode_result rofiHeader
        { last_result := "3 + 3 = 6".toList, history := ["1 + 1 = 2".toList] } 0x10000 1
      = .ok { retv := 1004,
              pd := { last_result := "3 + 3 = 6".toList,
                      history := ["1 + 1 = 2".toList, "3 + 3 = 6".toList] },
              clipboard := none } ∧
    (({ retv := 1004,
        pd := { last_result := "3 + 3 = 6".toList,
                history := ["1 + 1 = 2".toList, "3 + 3 = 6".toList] },
        clipboard := none } : Handled).pd.last_result = "3 + 3 = 6".toList) :=
  ⟨by rfl, (mutation_discipline rofiHeader
      { last_result := "3 + 3 = 6".toList, history := ["1 + 1 = 2".toList] } 0x10000 1
      { retv := 1004,
        pd := { last_result := "3 + 3 = 6".toList,
                history := ["1 + 1 = 2".toList, "3 + 3 = 6".toList] },
        clipboard := none } (by rfl)).1⟩

theorem g_ptr_array_remove_index_isOk_iff (array : List CStr) (index : Int) :
    (∃ r, g_ptr_array_remove_index array index = .ok r)
      ↔ (index % 2 ^ 32).toNat < array.length := by
  unfold g_ptr_array_remove_index
  simp only []
  constructor
  · rintro ⟨r, hr⟩
    split at hr
    · assumption
    · cases hr
  · intro hlt
    exact ⟨_, if_pos hlt⟩

/-- C20 (range of the index translation): for a history of fewer than `2^31` entries and a
32-bit row, the `int` returned by `get_real_history_index` lies in `[0, len - 1]` exactly
when `2 <= row <= len + 1`; it is `len` for row 1; it lies outside `[0, len - 1]` for every
row above `len + 1`; for the row `-1u` the unsigned value is `len + 2` (and so is the `int`
when `len + 2 < 2^31`), and an OK action without custom input on that row ends in the
out-of-range read; and the array accesses of the copy path (`g_ptr_array_index` with
the `int`), of the delete path (`g_ptr_array_remove_index`) and of the display path
(`g_ptr_array_index` with the value stored in an `unsigned int`) are in range exactly when
`2 <= row < calc_mode_get_num_entries`. -/
theorem index_translation_range (pd : CALCModePrivateData) (selected_line : Nat)
    (hlen : pd.history.length < 2 ^ 31) (hrow : selected_line < 2 ^ 32) :
    ((0 ≤ get_real_history_index pd.history selected_line ∧
        get_real_history_index pd.history selected_line < pd.history.length) ↔
      (2 ≤ selected_line ∧ selected_line ≤ pd.history.length + 1)) ∧
    (selected_line = 1 → get_real_history_index pd.history selected_line = pd.history.length) ∧
    (pd.history.length + 1 < selected_line →
      ¬ (0 ≤ get_real_history_index pd.history selected_line ∧
          get_real_history_index pd.history selected_line < pd.history.length)) ∧
    (selected_line = noRow →
      get_real_history_index pd.history selected_line % 2 ^ 32 = pd.history.length + 2 ∧
      (pd.history.length + 2 < 2 ^ 31 →
        get_real_history_index pd.history selected_line = pd.history.length + 2)) ∧
    ((∃ p, g_ptr_array_index pd.history (get_real_history_index pd.history selected_line)
          = .ok p) ↔
      (2 ≤ selected_line ∧ selected_line < calc_mode_get_num_entries pd)) ∧
    ((∃ r, g_ptr_array_remove_index pd.history
          (get_real_history_index pd.history selected_line) = .ok r) ↔
      (2 ≤ selected_line ∧ selected_line < calc_mode_get_num_entries pd)) ∧
    ((∃ p, g_ptr_array_index pd.history
          (get_real_history_index pd.history selected_line % 2 ^ 32) = .ok p) ↔
      (2 ≤ selected_line ∧ selected_line < calc_mode_get_num_entries pd)) ∧
    (∀ (k : ModeHeader) (menu_entry : Nat), menu_entry &&& k.MENU_NEXT = 0 →
      menu_entry &&& k.MENU_PREVIOUS = 0 → menu_entry &&& k.MENU_QUICK_SWITCH = 0 →
      menu_entry &&& k.MENU_OK ≠ 0 → menu_entry &&& k.MENU_CUSTOM_INPUT = 0 →
      selected_line = noRow →
      calc_mode_result k pd menu_entry selected_line
        = .error (.indexOutOfRange (get_real_history_index pd.history selected_line)
            pd.history.length)) := by
  have hcount : calc_mode_get_num_entries pd = pd.history.length + 2 := by
    unfold calc_mode_get_num_entries
    omega
  have hsentinel : selected_line = noRow →
      ¬ (0 ≤ get_real_history_index pd.history selected_line ∧
          get_real_history_index pd.history selected_line < pd.history.length) := by
    unfold get_real_history_index noRow
    simp only []
    intro h; split <;> omega
  refine ⟨?_, ?_, ?_, ?_, ?_, ?_, ?_, fun k menu_entry hn hp hq ho hc hs => ?_⟩
  · unfold get_real_history_index
    simp only []
    split <;> constructor <;> intro h <;> omega
  · unfold get_real_history_index
    simp only []
    intro h; split <;> omega
  · unfold get_real_history_index
    simp only []
    intro h; split <;> omega
  · unfold get_real_history_index noRow
    simp only []
    intro h; split <;> constructor <;> omega
  · rw [g_ptr_array_index_isOk_iff, hcount]
    unfold get_real_history_index
    simp only []
    split <;> constructor <;> intro h <;> omega
  · rw [g_ptr_array_remove_index_isOk_iff, hcount]
    unfold get_real_history_index
    simp only []
    split <;> constructor <;> intro h <;> omega
  · rw [g_ptr_array_index_isOk_iff, hcount]
    unfold get_real_history_index
    simp only []
    split <;> constructor <;> intro h <;> omega
  · have h1 : selected_line > 1 := by unfold noRow at hs; omega
    unfold calc_mode_result
    rw [if_neg (by simp [hn]), if_neg (by simp [hp]), if_neg (by simp [hq]),
      if_neg (by rintro ⟨-, h0⟩; omega),
      if_neg (by rintro (⟨-, h⟩ | ⟨h, -⟩); exacts [by omega, h hc]), if_pos ⟨ho, h1⟩,
      g_ptr_array_index_out_of_range _ _ (hsentinel hs)]
    rfl

/-- The index translation on a history of two entries: row 2 is slot 1 and is in range,
rows 1 and 4 are not. -/
theorem index_translation_range_witness :
    ((0 ≤ get_real_history_index ["1 + 1 = 2".toList, "3 + 3 = 6".toList] 2 ∧
        get_real_history_index ["1 + 1 = 2".toList, "3 + 3 = 6".toList] 2
          < (["1 + 1 = 2".toList, "3 + 3 = 6".toList] : List CStr).length) ↔
      (2 ≤ 2 ∧ 2 ≤ (["1 + 1 = 2".toList, "3 + 3 = 6".toList] : List CStr).length + 1)) :=
  (index_translation_range
    { last_result := [], history := ["1 + 1 = 2".toList, "3 + 3 = 6".toList] } 2
    (by decide) (by decide)).1


/-! ## Extracting the answer: copies and the seed of `ans` -/

theorem calc_mode_result_copy_current (k : ModeHeader) (pd : CALCModePrivateData)
    (menu_entry : Nat) (hn : menu_entry &&& k.MENU_NEXT = 0)
    (hp : menu_entry &&& k.MENU_PREVIOUS = 0) (hq : menu_entry &&& k.MENU_QUICK_SWITCH = 0)
    (ho : menu_entry &&& k.MENU_OK ≠ 0) :
    calc_mode_result k pd menu_entry 0
      = if addable pd.last_result then
          (copy_only_result_to_clipboard (get_only_result_part (some pd.last_result))).map
            (fun copied => { retv := k.MODE_EXIT, pd := pd, clipboard := copied })
        else .ok { retv := k.MODE_EXIT, pd := pd, clipboard := none } := by
  unfold calc_mode_result
  rw [if_neg (by simp [hn]), if_neg (by simp [hp]), if_neg (by simp [hq]), if_pos ⟨ho, rfl⟩]
  by_cases he : addable pd.last_result
  · rw [if_pos he, if_pos ⟨by simp [he.1], List.length_pos.mpr he.2⟩]
    dsimp only
    cases copy_only_result_to_clipboard (get_only_result_part (some pd.last_result)) <;> rfl
  · rw [if_neg he, if_neg]
    · rfl
    · intro hc
      exact he ⟨by simpa using hc.1, List.length_pos.mp hc.2⟩

theorem calc_mode_result_copy_entry (k : ModeHeader) (pd : CALCModePrivateData)
    (menu_entry selected_line : Nat) (hn : menu_entry &&& k.MENU_NEXT = 0)
    (hp : menu_entry &&& k.MENU_PREVIOUS = 0) (hq : menu_entry &&& k.MENU_QUICK_SWITCH = 0)
    (ho : menu_entry &&& k.MENU_OK ≠ 0) (h1 : 1 < selected_line)
    (hc : ¬ (menu_entry &&& k.MENU_CUSTOM_INPUT ≠ 0 ∧ selected_line = noRow)) :
    calc_mode_result k pd menu_entry selected_line
      = (g_ptr_array_index pd.history (get_real_history_index pd.history selected_line)).bind
          (fun entry =>
            (copy_only_result_to_clipboard (get_only_result_part (some entry))).map
              (fun copied => { retv := k.MODE_EXIT, pd := pd, clipboard := copied })) := by
  unfold calc_mode_result
  rw [if_neg (by simp [hn]), if_neg (by simp [hp]), if_neg (by simp [hq]),
    if_neg (by rintro ⟨-, h0⟩; omega),
    if_neg (by rintro (⟨-, h⟩ | h); exacts [by omega, hc h]), if_pos ⟨ho, h1⟩]
  cases g_ptr_array_index pd.history (get_real_history_index pd.history selected_line) with
  | error e => rfl
  | ok entry =>
    dsimp only [bind, Except.bind]
    cases copy_only_result_to_clipboard (get_only_result_part (some entry)) <;> rfl

theorem get_only_result_part_no_separator (s : CStr) (h : '=' ∉ s) :
    get_only_result_part (some s) = .addr 2 := by
  unfold get_only_result_part
  simp only [(strchr_eq_none_iff s '=').mpr h]

theorem get_only_result_part_first (q rest : CStr) (c : Char) (h : '=' ∉ q) :
    get_only_result_part (some (q ++ '=' :: c :: rest)) = .str rest := by
  unfold get_only_result_part
  simp only [strchr_first q (c :: rest) '=' h]
  rfl

theorem get_only_result_part_at_end (q : CStr) (h : '=' ∉ q) :
    get_only_result_part (some (q ++ ['='])) = .pastEnd := by
  unfold get_only_result_part
  simp only [strchr_first q [] '=' h]
  rfl

theorem copy_only_result_to_clipboard_str (a : CStr) :
    copy_only_result_to_clipboard (.str a) = .ok (some a) := by
  unfold copy_only_result_to_clipboard
  rw [if_pos (by simp)]
  rfl


/-- C16, what the code does: for a string without `=`, `get_only_result_part` returns the
integer 2 converted to a pointer; it is not `NULL`, so the test `result != NULL` of
`copy_only_result_to_clipboard` lets it through and the copy reads address 2 as a string;
OK on row 0 with such a `last_result` ends in that fault, and so does the seeding of `ans`
from such a history entry. -/
theorem extract_answer_without_separator (s : CStr) (h : '=' ∉ s) :
    get_only_result_part (some s) = .addr 2 ∧
    get_only_result_part (some s) ≠ .null ∧
    copy_only_result_to_clipboard (get_only_result_part (some s))
      = .error (.invalidPointer 2) ∧
    (get_only_result_part (some s)).read = .error (.invalidPointer 2) := by
  rw [get_only_result_part_no_separator s h]
  refine ⟨rfl, by simp, ?_, rfl⟩
  unfold copy_only_result_to_clipboard
  rw [if_pos (by simp)]
  rfl

/-- The string `"2"` has no `=`: its answer part is the pointer 2, and copying it
faults. -/
theorem extract_answer_without_separator_witness :
    '=' ∉ "2".toList ∧
    copy_only_result_to_clipboard (get_only_result_part (some "2".toList))
      = .error (.invalidPointer 2) :=
  ⟨by decide, (extract_answer_without_separator "2".toList (by decide)).2.2.1⟩

/-- C2 as stated fails: with OK on row 0 and `last_result = "2"` (non-empty, not an error
string, no `=`) the handler does not return exit, it reads address 2; with
`last_result = "1 + 1 ="` it reads beyond the end of the string. -/
theorem copy_current_result_counterexample :
    calc_mode_result rofiHeader { last_result := "2".toList, history := [] } 0x10000 0
      = .error (.invalidPointer 2) ∧
    calc_mode_result rofiHeader { last_result := "1 + 1 =".toList, history := [] } 0x10000 0
      = .error .readPastEnd := by
  exact ⟨by rfl, by rfl⟩

/-- C2 amended (copy current result): with OK set, row 0 and the Next, Previous and
QuickSwitch bits clear, when `last_result` is empty or an error string the handler returns
exit, copies nothing and leaves the private data unchanged; when `last_result` is non-empty,
not an error string, and has at least one character after its first `=`, the handler
returns exit, leaves the private data unchanged and writes to the clipboard exactly the
text that follows the first `=` and the character after it.  With
`last_result = "warning: something"` nothing is copied and the directive is exit. -/
theorem copy_current_result (k : ModeHeader) (pd : CALCModePrivateData) (menu_entry : Nat)
    (hn : menu_entry &&& k.MENU_NEXT = 0) (hp : menu_entry &&& k.MENU_PREVIOUS = 0)
    (hq : menu_entry &&& k.MENU_QUICK_SWITCH = 0) (ho : menu_entry &&& k.MENU_OK ≠ 0) :
    (¬ addable pd.last_result →
      calc_mode_result k pd menu_entry 0
        = .ok { retv := k.MODE_EXIT, pd := pd, clipboard := none }) ∧
    (addable pd.last_result → ∀ (q : CStr) (c : Char) (answer : CStr),
      pd.last_result = q ++ '=' :: c :: answer → '=' ∉ q →
      calc_mode_result k pd menu_entry 0
        = .ok { retv := k.MODE_EXIT, pd := pd, clipboard := some answer }) ∧
    (pd.last_result = "warning: something".toList →
      calc_mode_result k pd menu_entry 0
        = .ok { retv := k.MODE_EXIT, pd := pd, clipboard := none }) := by
  refine ⟨fun he => ?_, fun he q c answer hs hq2 => ?_, fun hw => ?_⟩
  · rw [calc_mode_result_copy_current k pd menu_entry hn hp hq ho, if_neg he]
  · rw [calc_mode_result_copy_current k pd menu_entry hn hp hq ho, if_pos he, hs,
      get_only_result_part_first q answer c hq2, copy_only_result_to_clipboard_str]
    rfl
  · rw [calc_mode_result_copy_current k pd menu_entry hn hp hq ho, if_neg]
    rw [hw]
    decide

/-- Copying the current result `"1 + 1 = 2"` writes `"2"` to the clipboard; with the
result `"warning: something"` nothing is copied. -/
theorem copy_current_result_witness :
    calc_mode_result rofiHeader { last_result := "1 + 1 = 2".toList, history := [] } 0x10000 0
      = .ok { retv := 1000, pd := { last_result := "1 + 1 = 2".toList, history := [] },
              clipboard := some "2".toList } ∧
    calc_mode_result rofiHeader
        { last_result := "warning: something".toList, history := [] } 0x10000 0
      = .ok { retv := 1000,
              pd := { last_result := "warning: something".toList, history := [] },
              clipboard := none } :=
  ⟨(copy_current_result rofiHeader { last_result := "1 + 1 = 2".toList, history := [] }
      0x10000 (by decide) (by decide) (by decide) (by decide)).2.1 (by decide)
      "1 + 1 ".toList ' ' "2".toList rfl (by decide),
   (copy_current_result rofiHeader
      { last_result := "warning: something".toList, history := [] }
      0x10000 (by decide) (by decide) (by decide) (by decide)).2.2 rfl⟩


/-- C5 as stated fails: the history `["2"]` is reached by adding the result `"2"`, and OK
on its row 2 does not return exit: the entry has no `=` and address 2 is read. -/
theorem copy_history_entry_counterexample :
    calc_mode_result rofiHeader { last_result := "2".toList, history := [] } 0x10000 1
      = .ok { retv := rofiHeader.RESET_DIALOG,
              pd := { last_result := "2".toList, history := ["2".toList] },
              clipboard := none } ∧
    calc_mode_result rofiHeader { last_result := "2".toList, history := ["2".toList] }
        0x10000 2
      = .error (.invalidPointer 2) := by
  exact ⟨by rfl, by rfl⟩

/-- C5 amended (copy a history entry): for a history of `len < 2^31` entries, with OK set,
the Next, Previous and QuickSwitch bits clear and a row with `2 <= row <= len + 1`, the
entry `history[len - row + 1]` exists and is the text displayed on that row; when the
entry has at least one character after its first `=`, the handler returns exit, leaves
the private data unchanged and writes to the clipboard exactly the text that follows the
first `=` and the character after it. -/
theorem copy_history_entry (k : ModeHeader) (pd : CALCModePrivateData)
    (menu_entry selected_line : Nat)
    (hn : menu_entry &&& k.MENU_NEXT = 0) (hp : menu_entry &&& k.MENU_PREVIOUS = 0)
    (hq : menu_entry &&& k.MENU_QUICK_SWITCH = 0) (ho : menu_entry &&& k.MENU_OK ≠ 0)
    (hlen : pd.history.length < 2 ^ 31) (h2 : 2 ≤ selected_line)
    (hle : selected_line ≤ pd.history.length + 1) :
    ∃ entry, pd.history.get? (pd.history.length + 1 - selected_line) = some entry ∧
      calc_get_display_value pd selected_line true = .ok (some entry) ∧
      ∀ (q : CStr) (c : Char) (answer : CStr), entry = q ++ '=' :: c :: answer → '=' ∉ q →
        calc_mode_result k pd menu_entry selected_line
          = .ok { retv := k.MODE_EXIT, pd := pd, clipboard := some answer } := by
  have hslot : pd.history.length + 1 - selected_line < pd.history.length := by omega
  have hidx := get_real_history_index_in_range pd.history selected_line (by omega) h2 hle
  refine ⟨pd.history.get ⟨_, hslot⟩, List.get?_eq_get hslot, ?_, ?_⟩
  · unfold calc_get_display_value
    rw [if_neg (by simp), if_neg (by omega), if_neg (by omega)]
    have hm : get_real_history_index pd.history selected_line % 2 ^ 32
        = ((pd.history.length + 1 - selected_line : Nat) : Int) := by
      rw [hidx]; omega
    simp only [hm, g_ptr_array_index_ok pd.history _ hslot]
    rfl
  · intro q c answer hs hq2
    rw [calc_mode_result_copy_entry k pd menu_entry selected_line hn hp hq ho (by omega)
        (by rintro ⟨-, h⟩; unfold noRow at h; omega),
      hidx, g_ptr_array_index_ok pd.history _ hslot]
    show (copy_only_result_to_clipboard _).map _ = _
    rw [hs, get_only_result_part_first q answer c hq2, copy_only_result_to_clipboard_str]
    rfl

/-- OK on row 2 of the history `["1 + 1 = 2", "3 + 3 = 6"]` copies `"6"`. -/
theorem copy_history_entry_witness :
    ∃ entry, (["1 + 1 = 2".toList, "3 + 3 = 6".toList] : List CStr).get? (2 + 1 - 2)
        = some entry ∧
      calc_get_display_value
          { last_result := [], history := ["1 + 1 = 2".toList, "3 + 3 = 6".toList] } 2 true
        = .ok (some entry) ∧
      ∀ (q : CStr) (c : Char) (answer : CStr), entry = q ++ '=' :: c :: answer → '=' ∉ q →
        calc_mode_result rofiHeader
            { last_result := [], history := ["1 + 1 = 2".toList, "3 + 3 = 6".toList] }
            0x10000 2
          = .ok { retv := rofiHeader.MODE_EXIT,
                  pd := { last_result := [],
                          history := ["1 + 1 = 2".toList, "3 + 3 = 6".toList] },
                  clipboard := some answer } :=
  copy_history_entry rofiHeader
    { last_result := [], history := ["1 + 1 = 2".toList, "3 + 3 = 6".toList] } 0x10000 2
    (by decide) (by decide) (by decide) (by decide) (by decide) (by decide) (by decide)

/-- C15 as stated fails: with the history `["2"]` (reached by adding the result `"2"`)
`calc_preprocess_input` does not write a seed line: the `%s` of the format reads
address 2. -/
theorem seed_previous_answer_counterexample :
    calc_preprocess_input { last_result := "2".toList, history := ["2".toList] } "1+1".toList
      = .error (.invalidPointer 2) := by
  rfl

/-- C15 amended (seeding the previous answer): for every expression text and every session
whose history has fewer than `2^32` entries, `calc_preprocess_input` writes exactly the
expression when the history is empty, and exactly `"ans:=" ++ answer ++ "\n" ++ expression`
when the history is non-empty and `answer` is what follows the first `=` and the character
after it in the last (most recently appended) entry; `last_result` plays no part; the
expression is returned unchanged and the private data is not modified. -/
theorem seed_previous_answer (pd : CALCModePrivateData) (input : CStr)
    (hlen : pd.history.length < 2 ^ 32) :
    (pd.history = [] →
      calc_preprocess_input pd input = .ok { stdin := input, retv := input, pd := pd }) ∧
    (∀ (older : List CStr) (q : CStr) (c : Char) (answer : CStr),
      pd.history = older ++ [q ++ '=' :: c :: answer] → '=' ∉ q →
      calc_preprocess_input pd input
        = .ok { stdin := "ans:=".toList ++ answer ++ "\n".toList ++ input,
                retv := input, pd := pd }) := by
  refine ⟨fun hnil => ?_, fun older q c answer hh hq2 => ?_⟩
  · unfold calc_preprocess_input
    rw [if_neg (by simp [hnil])]
    rfl
  · unfold calc_preprocess_input
    have hl : pd.history.length = older.length + 1 := by simp [hh]
    have hi : ((pd.history.length : Int) - 1) % 2 ^ 32 = ((older.length : Nat) : Int) := by
      omega
    have hget : g_ptr_array_index pd.history ((older.length : Nat) : Int)
        = .ok (q ++ '=' :: c :: answer) := by
      rw [g_ptr_array_index_ok pd.history older.length (by omega)]
      simp [hh]
    rw [if_pos (by omega), hi, hget]
    show ((get_only_result_part (some (q ++ '=' :: c :: answer))).read).bind _ = _
    rw [get_only_result_part_first q answer c hq2]
    rfl

/-- With the history `["1 + 1 = 2", "3 + 3 = 6"]` the seed line is `ans:=6`, whatever
`last_result` is; with the empty history only the expression is written. -/
theorem seed_previous_answer_witness :
    calc_preprocess_input
        { last_result := "9 = 9".toList,
          history := ["1 + 1 = 2".toList, "3 + 3 = 6".toList] } "ans*2".toList
      = .ok { stdin := "ans:=".toList ++ "6".toList ++ "\n".toList ++ "ans*2".toList,
              retv := "ans*2".toList,
              pd := { last_result := "9 = 9".toList,
                      history := ["1 + 1 = 2".toList, "3 + 3 = 6".toList] } } ∧
    calc_preprocess_input { last_result := "9 = 9".toList, history := [] } "ans*2".toList
      = .ok { stdin := "ans*2".toList, retv := "ans*2".toList,
              pd := { last_result := "9 = 9".toList, history := [] } } :=
  ⟨(seed_previous_answer
      { last_result := "9 = 9".toList,
        history := ["1 + 1 = 2".toList, "3 + 3 = 6".toList] } "ans*2".toList
      (by decide)).2 ["1 + 1 = 2".toList] "3 + 3 ".toList ' ' "6".toList rfl (by decide),
   (seed_previous_answer { last_result := "9 = 9".toList, history := [] } "ans*2".toList
      (by decide)).1 rfl⟩


/-! ## The completion handler -/

theorem strncmp_ans (stdout_buf : CStr) :
    strncmp stdout_buf "> ans:=".toList 7 = 0 ↔ "> ans:=".toList <+: stdout_buf :=
  strncmp_eq_zero_iff "> ans:=".toList stdout_buf (by decide)

theorem process_cb_result_plain (stdout_buf : CStr)
    (hans : ¬ "> ans:=".toList <+: stdout_buf) :
    process_cb_result stdout_buf
      = match strstr stdout_buf "\n\n  ".toList with
        | some r => .ok ((r.drop 4).take (strcspn_newline (r.drop 4)))
        | none => .error (.invalidPointer 4) := by
  have h : strncmp stdout_buf "> ans:=".toList 7 ≠ 0 := fun hc => hans ((strncmp_ans _).mp hc)
  unfold process_cb_result
  simp only [if_pos h, bind, Except.bind, pure, Except.pure]

theorem process_cb_result_ans (stdout_buf : CStr)
    (hans : "> ans:=".toList <+: stdout_buf) :
    process_cb_result stdout_buf
      = match strstr stdout_buf "\n\n>".toList with
        | some q =>
          match strstr (q.drop 3) "\n\n  ".toList with
          | some r => .ok ((r.drop 4).take (strcspn_newline (r.drop 4)))
          | none => .error (.invalidPointer 4)
        | none => .error (.invalidPointer 3) := by
  have h : ¬ strncmp stdout_buf "> ans:=".toList 7 ≠ 0 := fun hc => hc ((strncmp_ans _).mpr hans)
  unfold process_cb_result
  simp only [if_neg h, bind, Except.bind, pure, Except.pure]

/-- C17, what the code does: when the transcript does not begin with `"> ans:="` and has no
`"\n\n  "`, `strstr` returns `NULL` and `strcspn` reads address 4; when it begins with
`"> ans:="` and has no `"\n\n>"`, the second `strstr` reads address 3; when the first
`"\n\n>"` is found but no `"\n\n  "` follows it, address 4 is read.  In each case
`process_cb` ends in the fault: nothing is reported and nothing is stored. -/
theorem process_cb_markers_absent (pd : CALCModePrivateData) (stdout_buf : CStr) :
    (¬ "> ans:=".toList <+: stdout_buf → ¬ "\n\n  ".toList <:+: stdout_buf →
      process_cb pd stdout_buf = .error (.invalidPointer 4)) ∧
    ("> ans:=".toList <+: stdout_buf → ¬ "\n\n>".toList <:+: stdout_buf →
      process_cb pd stdout_buf = .error (.invalidPointer 3)) ∧
    ("> ans:=".toList <+: stdout_buf → ∀ before after,
      stdout_buf = before ++ "\n\n>".toList ++ after →
      (∀ i, i < before.length →
        ¬ "\n\n>".toList <+: (before ++ "\n\n>".toList ++ after).drop i) →
      ¬ "\n\n  ".toList <:+: after →
      process_cb pd stdout_buf = .error (.invalidPointer 4)) := by
  refine ⟨fun hans hno => ?_, fun hans hno => ?_, fun hans before after hb hfirst hno => ?_⟩
  · unfold process_cb
    rw [process_cb_result_plain stdout_buf hans, (strstr_eq_none_iff _ _).mpr hno]
    rfl
  · unfold process_cb
    rw [process_cb_result_ans stdout_buf hans, (strstr_eq_none_iff _ _).mpr hno]
    rfl
  · unfold process_cb
    rw [process_cb_result_ans stdout_buf hans, hb, strstr_first before _ after hfirst]
    have hd : ("\n\n>".toList ++ after).drop 3 = after := by
      show after = after
      rfl
    simp only [hd, (strstr_eq_none_iff _ _).mpr hno]
    rfl

/-- The transcripts `"hello"` and `"> ans:=2"` make `process_cb` read addresses 4 and 3. -/
theorem process_cb_markers_absent_witness :
    process_cb { last_result := "1 + 1 = 2".toList, history := [] } "hello".toList
      = .error (.invalidPointer 4) ∧
    process_cb { last_result := "1 + 1 = 2".toList, history := [] } "> ans:=2".toList
      = .error (.invalidPointer 3) :=
  ⟨(process_cb_markers_absent _ "hello".toList).1 (by decide) (by decide),
   (process_cb_markers_absent _ "> ans:=2".toList).2.1 (by decide) (by decide)⟩

/-- C18, what the code does: `get_real_history_index` gives `len` for row 1, and the
delete branch tests only `selected_line > 0`, so entry-delete on row 1 calls
`g_ptr_array_remove_index` with the index `len`, one beyond the last element. -/
theorem delete_on_action_row (k : ModeHeader) (pd : CALCModePrivateData) (menu_entry : Nat)
    (hdel : deleteAction k menu_entry 1) (hlen : pd.history.length < 2 ^ 31) :
    get_real_history_index pd.history 1 = pd.history.length ∧
    calc_mode_result k pd menu_entry 1
      = .error (.removeOutOfRange pd.history.length pd.history.length) := by
  have hidx : get_real_history_index pd.history 1 = pd.history.length := by
    unfold get_real_history_index
    simp only []
    split <;> omega
  refine ⟨hidx, ?_⟩
  rw [calc_mode_result_delete k pd menu_entry 1 hdel (by omega), hidx]
  unfold g_ptr_array_remove_index
  have hm : (((pd.history.length : Nat) : Int) % 2 ^ 32).toNat = pd.history.length := by omega
  simp only [hm, lt_irrefl, if_false]
  rfl

/-- Entry-delete on row 1 of the history `["1 + 1 = 2"]` asks for the removal of index 1
of an array of length 1. -/
theorem delete_on_action_row_witness :
    calc_mode_result rofiHeader
        { last_result := [], history := ["1 + 1 = 2".toList] } 0x100000 1
      = .error (.removeOutOfRange 1 1) :=
  (delete_on_action_row rofiHeader { last_result := [], history := ["1 + 1 = 2".toList] }
    0x100000 (by decide) (by decide)).2


/-! ## Add to history, display, delete -/

/-- C1 (add to history): when no navigation bit is set, the action is not OK on row 0, and
it is OK on row 1 or custom input with no row selected (`-1u`), the handler returns
reset-dialog and copies nothing; the new history is the old one with `last_result`
appended at the end when `last_result` is non-empty and not an error string, and the
private data is exactly unchanged otherwise. -/
theorem add_to_history (k : ModeHeader) (pd : CALCModePrivateData)
    (menu_entry selected_line : Nat) (h : addAction k menu_entry selected_line) :
    (addable pd.last_result →
      calc_mode_result k pd menu_entry selected_line
        = .ok { retv := k.RESET_DIALOG,
                pd := { last_result := pd.last_result,
                        history := pd.history ++ [pd.last_result] },
                clipboard := none }) ∧
    (¬ addable pd.last_result →
      calc_mode_result k pd menu_entry selected_line
        = .ok { retv := k.RESET_DIALOG, pd := pd, clipboard := none }) := by
  refine ⟨fun he => ?_, fun he => ?_⟩
  · rw [calc_mode_result_add k pd menu_entry selected_line h, if_pos he]
  · rw [calc_mode_result_add k pd menu_entry selected_line h, if_neg he]

/-- Add to history by OK on row 1 with the result `"3 + 3 = 6"`, and by custom input with
no row selected while the result is an error string. -/
theorem add_to_history_witness :
    calc_mode_result rofiHeader
        { last_result := "3 + 3 = 6".toList, history := ["1 + 1 = 2".toList] } 0x10000 1
      = .ok { retv := 1004,
              pd := { last_result := "3 + 3 = 6".toList,
                      history := ["1 + 1 = 2".toList, "3 + 3 = 6".toList] },
              clipboard := none } ∧
    calc_mode_result rofiHeader
        { last_result := "error: x".toList, history := ["1 + 1 = 2".toList] } 0x80000 noRow
      = .ok { retv := 1004,
              pd := { last_result := "error: x".toList, history := ["1 + 1 = 2".toList] },
              clipboard := none } :=
  ⟨(add_to_history rofiHeader
      { last_result := "3 + 3 = 6".toList, history := ["1 + 1 = 2".toList] } 0x10000 1
      (by decide)).1 (by decide),
   (add_to_history rofiHeader
      { last_result := "error: x".toList, history := ["1 + 1 = 2".toList] } 0x80000 noRow
      (by decide)).2 (by decide)⟩

theorem calc_get_display_value_entry (pd : CALCModePrivateData) (selected_line : Nat)
    (hlen : pd.history.length < 2 ^ 32) (h2 : 2 ≤ selected_line)
    (hle : selected_line ≤ pd.history.length + 1) :
    calc_get_display_value pd selected_line true
      = .ok (pd.history.get? (pd.history.length + 1 - selected_line)) := by
  have hslot : pd.history.length + 1 - selected_line < pd.history.length := by omega
  unfold calc_get_display_value
  rw [if_neg (by simp), if_neg (by omega), if_neg (by omega)]
  have hm : get_real_history_index pd.history selected_line % 2 ^ 32
      = ((pd.history.length + 1 - selected_line : Nat) : Int) := by
    rw [get_real_history_index_mod]; omega
  simp only [hm, g_ptr_array_index_ok pd.history _ hslot]
  rw [List.get?_eq_get hslot]
  rfl

/-- C3 (most-recent-first rendering): when the text of a row is asked for (`get_entry` not
0), row 0 shows `"Copy to clipboard and exit"`, row 1 shows `"Add to history"`, and for a
history of `len < 2^32` entries every row with `2 <= row <= len + 1` shows
`history[len - row + 1]`; the texts of the rows `2, 3, ..., len + 1` are the history in
reverse order, each entry once. -/
theorem most_recent_first (pd : CALCModePrivateData) (hlen : pd.history.length < 2 ^ 32) :
    calc_get_display_value pd 0 true = .ok (some "Copy to clipboard and exit".toList) ∧
    calc_get_display_value pd 1 true = .ok (some "Add to history".toList) ∧
    (∀ selected_line, 2 ≤ selected_line → selected_line ≤ pd.history.length + 1 →
      ∃ hslot : pd.history.length + 1 - selected_line < pd.history.length,
        calc_get_display_value pd selected_line true
          = .ok (some (pd.history.get ⟨pd.history.length + 1 - selected_line, hslot⟩))) ∧
    (List.range pd.history.length).map (fun i => calc_get_display_value pd (i + 2) true)
      = pd.history.reverse.map (fun entry => .ok (some entry)) := by
  refine ⟨rfl, rfl, fun selected_line h2 hle => ?_, ?_⟩
  · have hslot : pd.history.length + 1 - selected_line < pd.history.length := by omega
    refine ⟨hslot, ?_⟩
    rw [calc_get_display_value_entry pd selected_line hlen h2 hle, List.get?_eq_get hslot]
  · apply List.ext_get
    · simp
    · intro i h1 h2
      have hi : i < pd.history.length := by simpa using h1
      simp only [List.get_eq_getElem, List.getElem_map, List.getElem_range,
        List.getElem_reverse]
      rw [calc_get_display_value_entry pd (i + 2) hlen (by omega) (by omega)]
      have hslot : pd.history.length + 1 - (i + 2) < pd.history.length := by omega
      rw [List.get?_eq_get hslot]
      have he : pd.history.length + 1 - (i + 2) = pd.history.length - 1 - i := by omega
      simp only [List.get_eq_getElem, he]

/-- Rows 2 and 3 of the history `["1 + 1 = 2", "3 + 3 = 6"]` show `"3 + 3 = 6"` and
`"1 + 1 = 2"`. -/
theorem most_recent_first_witness :
    (List.range 2).map (fun i => calc_get_display_value
        { last_result := [], history := ["1 + 1 = 2".toList, "3 + 3 = 6".toList] }
        (i + 2) true)
      = [.ok (some "3 + 3 = 6".toList), .ok (some "1 + 1 = 2".toList)] :=
  (most_recent_first
    { last_result := [], history := ["1 + 1 = 2".toList, "3 + 3 = 6".toList] }
    (by decide)).2.2.2

/-- C4 (delete entry): for a history of `len < 2^32` entries, with the entry-delete bit
set, the Next, Previous, QuickSwitch, OK and CustomInput bits clear and a row with
`2 <= row <= len + 1`, the handler returns reload-dialog and copies nothing; the new
history is the old one without the element at slot `len - row + 1`, that is the elements
before that slot followed by the elements after it, and `last_result` is unchanged. -/
theorem delete_entry (k : ModeHeader) (pd : CALCModePrivateData)
    (menu_entry selected_line : Nat)
    (hn : menu_entry &&& k.MENU_NEXT = 0) (hp : menu_entry &&& k.MENU_PREVIOUS = 0)
    (hq : menu_entry &&& k.MENU_QUICK_SWITCH = 0) (ho : menu_entry &&& k.MENU_OK = 0)
    (hc : menu_entry &&& k.MENU_CUSTOM_INPUT = 0)
    (hd : menu_entry &&& k.MENU_ENTRY_DELETE ≠ 0)
    (hlen : pd.history.length < 2 ^ 32) (h2 : 2 ≤ selected_line)
    (hle : selected_line ≤ pd.history.length + 1) :
    calc_mode_result k pd menu_entry selected_line
      = .ok { retv := k.RELOAD_DIALOG,
              pd := { last_result := pd.last_result,
                      history := pd.history.eraseIdx (pd.history.length + 1 - selected_line) },
              clipboard := none } ∧
    pd.history.eraseIdx (pd.history.length + 1 - selected_line)
      = pd.history.take (pd.history.length + 1 - selected_line)
          ++ pd.history.drop (pd.history.length + 1 - selected_line + 1) := by
  refine ⟨?_, List.eraseIdx_eq_take_drop_succ _ _⟩
  rw [calc_mode_result_delete k pd menu_entry selected_line
      ⟨hn, hp, hq, ho, fun h => h.1 hc, hd⟩ (by omega),
    g_ptr_array_remove_index_in_range pd.history selected_line (by omega) h2 hle]
  rfl

/-- Entry-delete on row 2 of `["1 + 1 = 2", "3 + 3 = 6"]` leaves `["1 + 1 = 2"]`. -/
theorem delete_entry_witness :
    calc_mode_result rofiHeader
        { last_result := "9 = 9".toList,
          history := ["1 + 1 = 2".toList, "3 + 3 = 6".toList] } 0x100000 2
      = .ok { retv := 1002,
              pd := { last_result := "9 = 9".toList, history := ["1 + 1 = 2".toList] },
              clipboard := none } :=
  (delete_entry rofiHeader
    { last_result := "9 = 9".toList,
      history := ["1 + 1 = 2".toList, "3 + 3 = 6".toList] } 0x100000 2
    (by decide) (by decide) (by decide) (by decide) (by decide) (by decide) (by decide)
    (by decide) (by decide)).1


/-! ## The result parser -/

/-- C6 (`extractAnswer`): for a string `Q ++ " = " ++ A` whose `Q` has no `=`,
`get_only_result_part` points at exactly `A`, the text after the first `=` and the space
that follows it. -/
theorem extract_answer (q a : CStr) (h : '=' ∉ q) :
    get_only_result_part (some (q ++ " = ".toList ++ a)) = .str a := by
  have hq : '=' ∉ q ++ [' '] := by simp [h]
  have hs : q ++ " = ".toList ++ a = (q ++ [' ']) ++ '=' :: ' ' :: a := by
    show q ++ [' ', '=', ' '] ++ a = _
    simp
  rw [hs, get_only_result_part_first _ _ _ hq]

/-- The answer part of `"1 + 1 = 2"` is `"2"`. -/
theorem extract_answer_witness :
    get_only_result_part (some ("1 + 1".toList ++ " = ".toList ++ "2".toList))
      = .str "2".toList :=
  extract_answer "1 + 1".toList "2".toList (by decide)

theorem strcspn_newline_line (line rest : CStr) (hline : '\n' ∉ line)
    (hrest : rest = [] ∨ ∃ r, rest = '\n' :: r) :
    (line ++ rest).take (strcspn_newline (line ++ rest)) = line := by
  induction line with
  | nil =>
    rcases hrest with h | ⟨r, h⟩ <;> simp [h, strcspn_newline]
  | cons c t ih =>
    have hc : c ≠ '\n' := fun hc => hline (by simp [hc])
    have ht : '\n' ∉ t := fun hm => hline (by simp [hm])
    have ih2 := ih ht
    simp only [List.cons_append, strcspn_newline, if_neg hc, List.take_succ_cons]
    exact congrArg (c :: ·) ih2

/-- C7 (`extractAnswerLine`): when the text searched contains `"\n\n  "`, `process_cb`
returns and the new `last_result` is the text that follows the first `"\n\n  "` up to, and
not including, the next newline or the end of the transcript, the history being unchanged.
The text searched is the whole transcript when it does not begin with `"> ans:="`, and
what follows the first `"\n\n>"` when it does.  The transcript `"1 + 1 = \n\n  2\n"`
gives `"2"`.  Whenever a transcript that does not begin with `"> ans:="` contains
`"\n\n  "`, `process_cb` returns. -/
theorem extract_answer_line (pd : CALCModePrivateData) (before line rest : CStr)
    (hfirst : ∀ i, i < before.length →
      ¬ "\n\n  ".toList <+: (before ++ "\n\n  ".toList ++ (line ++ rest)).drop i)
    (hline : '\n' ∉ line) (hrest : rest = [] ∨ ∃ r, rest = '\n' :: r) :
    (¬ "> ans:=".toList <+: before ++ "\n\n  ".toList ++ (line ++ rest) →
      process_cb pd (before ++ "\n\n  ".toList ++ (line ++ rest))
        = .ok { last_result := line, history := pd.history }) ∧
    (∀ seed, "> ans:=".toList <+: seed →
      (∀ i, i < seed.length →
        ¬ "\n\n>".toList <+:
          (seed ++ "\n\n>".toList ++ (before ++ "\n\n  ".toList ++ (line ++ rest))).drop i) →
      process_cb pd
          (seed ++ "\n\n>".toList ++ (before ++ "\n\n  ".toList ++ (line ++ rest)))
        = .ok { last_result := line, history := pd.history }) ∧
    (∀ stdout_buf, ¬ "> ans:=".toList <+: stdout_buf → "\n\n  ".toList <:+: stdout_buf →
      ∃ text, process_cb pd stdout_buf = .ok { last_result := text, history := pd.history }) ∧
    process_cb pd "1 + 1 = \n\n  2\n".toList
      = .ok { last_result := "2".toList, history := pd.history } := by
  have hd4 : ("\n\n  ".toList ++ (line ++ rest)).drop 4 = line ++ rest := rfl
  refine ⟨fun hans => ?_, fun seed hseed hsfirst => ?_, fun stdout_buf hans hm => ?_, rfl⟩
  rotate_left 2
  · unfold process_cb
    rw [process_cb_result_plain _ hans]
    cases hs : strstr stdout_buf "\n\n  ".toList with
    | none => exact absurd hm ((strstr_eq_none_iff _ _).mp hs)
    | some r => exact ⟨_, rfl⟩
  · unfold process_cb
    rw [process_cb_result_plain _ hans, strstr_first before _ _ hfirst]
    simp only [hd4, strcspn_newline_line line rest hline hrest]
    rfl
  · have hans : "> ans:=".toList <+:
        seed ++ "\n\n>".toList ++ (before ++ "\n\n  ".toList ++ (line ++ rest)) := by
      rw [List.append_assoc]
      exact hseed.trans (List.prefix_append _ _)
    have hd3 : ("\n\n>".toList ++ (before ++ "\n\n  ".toList ++ (line ++ rest))).drop 3
        = before ++ "\n\n  ".toList ++ (line ++ rest) := rfl
    unfold process_cb
    rw [process_cb_result_ans _ hans, strstr_first seed _ _ hsfirst]
    simp only [hd3, strstr_first before _ _ hfirst, hd4,
      strcspn_newline_line line rest hline hrest]
    rfl

/-- The transcript of qalc for `1+ans` after the seed `ans:=2`: the seeded assignment is
skipped and the line that is kept is `"1 + ans = 3"`. -/
theorem extract_answer_line_witness :
    process_cb { last_result := [], history := ["1 + 1 = 2".toList] }
        ("> ans:=2".toList ++ "\n\n>".toList ++
          (" 1+ans".toList ++ "\n\n  ".toList ++ ("1 + ans = 3".toList ++ "\n\n> ".toList)))
      = .ok { last_result := "1 + ans = 3".toList, history := ["1 + 1 = 2".toList] } :=
  (extract_answer_line { last_result := [], history := ["1 + 1 = 2".toList] }
    " 1+ans".toList "1 + ans = 3".toList "\n\n> ".toList
    (by decide) (by decide) (Or.inr ⟨"\n> ".toList, rfl⟩)).2.1 "> ans:=2".toList
    (by decide) (by decide)

/-- C8 (`classify`): a string is an error string exactly when it contains `"warning:"` or
`"error:"` as a contiguous substring, at any position and whatever else it contains; a
string of the shape `Q = A` that contains one of them is an error string, and the
capitalised `"Error:"` does not count. -/
theorem classify_error (str : CStr) :
    (is_error_string str = true ↔
      ("warning:".toList <:+: str ∨ "error:".toList <:+: str)) ∧
    (∀ q a : CStr, ("warning:".toList <:+: a ∨ "error:".toList <:+: a) →
      is_error_string (q ++ " = ".toList ++ a) = true) ∧
    is_error_string "1 / 0 = error: division by zero".toList = true ∧
    is_error_string "Error: 1 = 1".toList = false := by
  refine ⟨is_error_string_iff str, fun q a h => ?_, by decide, by decide⟩
  rw [is_error_string_iff]
  rcases h with h | h
  · exact Or.inl (h.trans (List.suffix_append _ _).isInfix)
  · exact Or.inr (h.trans (List.suffix_append _ _).isInfix)

/-- An error string in the middle of a `Q = A` shape. -/
theorem classify_error_witness :
    is_error_string ("1".toList ++ " = ".toList ++ "warning: x".toList) = true :=
  (classify_error []).2.1 "1".toList "warning: x".toList (Or.inl (by decide))


/-! ## Invariants of the history -/

/-- In every reachable state each history entry was a `last_result` accepted by the add
branch: a line stored by a completion, non-empty and not an error string. -/
theorem reachable_history (k : ModeHeader) (P : CStr → Prop) (pd : CALCModePrivateData)
    (h : Reachable k P pd) :
    (pd.last_result = [] ∨ P pd.last_result) ∧
    ∀ entry ∈ pd.history, P entry ∧ addable entry := by
  induction h with
  | init => exact ⟨Or.inl rfl, fun entry he => by cases he⟩
  | action pd menu_entry selected_line out _ _ hres ih =>
    rcases calc_mode_result_frame k pd menu_entry selected_line out hres with
      heq | ⟨-, hadd, heq⟩ | ⟨-, -, i, -, -, heq⟩
    · rw [heq]; exact ih
    · rw [heq]
      refine ⟨ih.1, fun entry he => ?_⟩
      rcases List.mem_append.mp he with hm | hm
      · exact ih.2 entry hm
      · have hentry : entry = pd.last_result := by simpa using hm
        rw [hentry]
        refine ⟨?_, hadd⟩
        rcases ih.1 with hnil | hp
        · exact absurd hnil hadd.2
        · exact hp
    · rw [heq]
      exact ⟨ih.1, fun entry he => ih.2 entry (List.mem_of_mem_eraseIdx he)⟩
  | completion pd line _ hline ih =>
    exact ⟨Or.inr hline, ih.2⟩

/-- C9 (no error strings, no empty strings in the history): in every state reached from
the initial session by calls of `calc_mode_result` that return (any action bits, any
32-bit row) and by completions that set `last_result` to an arbitrary string, every
history entry is non-empty and is not an error string. -/
theorem history_never_error_or_empty (k : ModeHeader) (pd : CALCModePrivateData)
    (h : Reachable k (fun _ => True) pd) :
    ∀ entry ∈ pd.history, entry ≠ [] ∧ is_error_string entry = false :=
  fun entry he =>
    have hadd := ((reachable_history k (fun _ => True) pd h).2 entry he).2
    ⟨hadd.2, hadd.1⟩

/-- The state reached by the completion `"3 + 3 = 6"`, an add, the completion
`"error: x"` and another add attempt has the history `["3 + 3 = 6"]`. -/
theorem history_never_error_or_empty_witness :
    Reachable rofiHeader (fun _ => True)
        { last_result := "error: x".toList, history := ["3 + 3 = 6".toList] } ∧
    ∀ entry ∈ (["3 + 3 = 6".toList] : List CStr),
      entry ≠ [] ∧ is_error_string entry = false :=
  have hreach : Reachable rofiHeader (fun _ => True)
      { last_result := "error: x".toList, history := ["3 + 3 = 6".toList] } :=
    Reachable.action { last_result := "error: x".toList, history := ["3 + 3 = 6".toList] }
      0x10000 1
      { retv := 1004,
        pd := { last_result := "error: x".toList, history := ["3 + 3 = 6".toList] },
        clipboard := none }
      (Reachable.completion
        { last_result := "3 + 3 = 6".toList, history := ["3 + 3 = 6".toList] }
        "error: x".toList
        (Reachable.action { last_result := "3 + 3 = 6".toList, history := [] } 0x10000 1
          { retv := 1004,
            pd := { last_result := "3 + 3 = 6".toList, history := ["3 + 3 = 6".toList] },
            clipboard := none }
          (Reachable.completion get_calc "3 + 3 = 6".toList Reachable.init trivial)
          (by decide) (by rfl))
        trivial)
      (by decide) (by rfl)
  ⟨hreach, history_never_error_or_empty rofiHeader _ hreach⟩

/-- C10 as stated fails: the completion that stores the line `"2"` (the transcript
`"1 + 1 = \n\n  2\n"`) followed by add-to-history reaches a state whose history holds
`"2"`, an entry without `=`. -/
theorem history_well_formed_counterexample :
    process_cb get_calc "1 + 1 = \n\n  2\n".toList
      = .ok { last_result := "2".toList, history := [] } ∧
    calc_mode_result rofiHeader { last_result := "2".toList, history := [] } 0x10000 1
      = .ok { retv := rofiHeader.RESET_DIALOG,
              pd := { last_result := "2".toList, history := ["2".toList] },
              clipboard := none } ∧
    Reachable rofiHeader (fun _ => True)
      { last_result := "2".toList, history := ["2".toList] } ∧
    ¬ ∀ entry ∈ (["2".toList] : List CStr), '=' ∈ entry := by
  refine ⟨by rfl, by rfl, ?_, by decide⟩
  exact Reachable.action { last_result := "2".toList, history := [] } 0x10000 1
    { retv := 1004, pd := { last_result := "2".toList, history := ["2".toList] },
      clipboard := none }
    (Reachable.completion get_calc "2".toList Reachable.init trivial) (by decide) (by rfl)

/-- C10 amended (shape of the history entries): the add branch appends `last_result` as
it is, with or without `=`, so the entries are as well formed as the lines that the
completions store: whatever property `P` all these lines have (containing `=`, for one),
every history entry of every reachable state has it, and is non-empty and not an error
string. -/
theorem history_well_formed (k : ModeHeader) (P : CStr → Prop) (pd : CALCModePrivateData)
    (h : Reachable k P pd) :
    ∀ entry ∈ pd.history, P entry ∧ entry ≠ [] ∧ is_error_string entry = false :=
  fun entry he =>
    have hp := (reachable_history k P pd h).2 entry he
    ⟨hp.1, hp.2.2, hp.2.1⟩

/-- With the line `"3 + 3 = 6"` stored and added, the history entry contains `=`. -/
theorem history_well_formed_witness :
    Reachable rofiHeader (fun line => '=' ∈ line)
        { last_result := "3 + 3 = 6".toList, history := ["3 + 3 = 6".toList] } ∧
    ∀ entry ∈ (["3 + 3 = 6".toList] : List CStr),
      '=' ∈ entry ∧ entry ≠ [] ∧ is_error_string entry = false :=
  have hreach : Reachable rofiHeader (fun line => '=' ∈ line)
      { last_result := "3 + 3 = 6".toList, history := ["3 + 3 = 6".toList] } :=
    Reachable.action { last_result := "3 + 3 = 6".toList, history := [] } 0x10000 1
      { retv := 1004,
        pd := { last_result := "3 + 3 = 6".toList, history := ["3 + 3 = 6".toList] },
        clipboard := none }
      (Reachable.completion get_calc "3 + 3 = 6".toList Reachable.init (by decide))
      (by decide) (by rfl)
  ⟨hreach, history_well_formed rofiHeader (fun line => '=' ∈ line) _ hreach⟩

end RofiCalc
